import Mathlib

/-!
Verification of the lazy slot pool
(crates/runtime/src/instance/allocator/pooling/lazy_pool.rs).

The Rust module is shallowly embedded below.  `SlotId` is a plain natural
number (the Rust newtype wraps a `usize`).  The `slab::Slab` backing store is
modelled by a list of optional ranges plus the crate's LIFO free list of
vacant indices; `priority_queue::PriorityQueue` is modelled by an association
list from slab id to priority whose pop extracts an element of maximal
priority.  All `usize` arithmetic that can wrap in release builds is taken
modulo 2^64.  Fallible situations of the source (out-of-bounds vector
indexing, `unwrap` of an empty pop, `Slab::remove` of a vacant key,
`get_unchecked_mut` of a vacant key, a failing decommit syscall) are modelled
by `Option`: a `none` result stands for a panic, process abort or undefined
behaviour, never for an error value.  The external
`decommit_stack_pages` call is abstracted by a boolean oracle passed to
`alloc`, and the sequence of (address, length) pairs the pool passes to it is
recorded in the ghost field `decommits` so that observational claims about
decommit calls can be stated.
-/

/-- Wrap-around modulus of 64-bit `usize` arithmetic. -/
def usizeSize : Nat := 18446744073709551616

/-- One slot identifier, as in the source a plain machine integer. -/
abbrev SlotId := Nat

/-- Model of `slab::Slab<Range>`: dense entries plus LIFO free list of
vacant indices, as maintained by the slab crate. -/
structure Slab where
  entries : List (Option (Nat × Nat))
  freeList : List Nat
deriving DecidableEq, Repr

/-- `Slab::insert`: reuse the most recently vacated key, else append. -/
def Slab.insert (s : Slab) (r : Nat × Nat) : Nat × Slab :=
  match s.freeList with
  | [] => (s.entries.length, ⟨s.entries ++ [some r], []⟩)
  | k :: rest => (k, ⟨s.entries.set k (some r), rest⟩)

/-- `Slab::remove`: panics (`none`) on a vacant or out-of-range key. -/
def Slab.remove (s : Slab) (k : Nat) : Option ((Nat × Nat) × Slab) :=
  match s.entries.getD k none with
  | some r => some (r, ⟨s.entries.set k none, k :: s.freeList⟩)
  | none => none

/-- `Slab::get_unchecked_mut` followed by a mutation of the entry.  Calling
it on a vacant key is undefined behaviour in the source, modelled by
`none`. -/
def Slab.modifyAt (s : Slab) (k : Nat) (f : (Nat × Nat) → (Nat × Nat)) :
    Option ((Nat × Nat) × Slab) :=
  match s.entries.getD k none with
  | some r => some (f r, ⟨s.entries.set k (some (f r)), s.freeList⟩)
  | none => none

/-- Whether slab key `k` is occupied. -/
def Slab.occ (s : Slab) (k : Nat) : Bool := (s.entries.getD k none).isSome

/-- The keys currently stored in the priority queue. -/
def pqKeys (pq : List (Nat × Nat)) : List Nat := pq.map Prod.fst

/-- Priority of key `k`, when present. -/
def pqLookup (pq : List (Nat × Nat)) (k : Nat) : Option Nat :=
  (pq.find? (fun e => e.1 == k)).map Prod.snd

/-- `PriorityQueue::change_priority`: updates the priority of `k` when
present, does nothing otherwise. -/
def pqChange (pq : List (Nat × Nat)) (k v : Nat) : List (Nat × Nat) :=
  pq.map (fun e => if e.1 = k then (k, v) else e)

/-- `PriorityQueue::push`: inserts, or updates the priority of an existing
key. -/
def pqPush (pq : List (Nat × Nat)) (k v : Nat) : List (Nat × Nat) :=
  if k ∈ pqKeys pq then pqChange pq k v else (k, v) :: pq

/-- `PriorityQueue::remove`. -/
def pqRemove (pq : List (Nat × Nat)) (k : Nat) : List (Nat × Nat) :=
  pq.filter (fun e => e.1 != k)

/-- `PriorityQueue::pop`: removes and returns an element of greatest
priority (the crate leaves ties unspecified; the model takes the first
maximal element). -/
def popMax : List (Nat × Nat) → Option ((Nat × Nat) × List (Nat × Nat))
  | [] => none
  | e :: rest =>
    match popMax rest with
    | none => some (e, [])
    | some (e2, rest2) => if e2.2 > e.2 then some (e2, e :: rest2) else some (e, rest)

/-- Read `v[i]` and set it to `none`, as `Option::take` through `Vec`
indexing; out-of-range indexing panics (`none`). -/
def takeAt (v : List (Option Nat)) (i : Nat) :
    Option (Option Nat × List (Option Nat)) :=
  if i < v.length then some (v.getD i none, v.set i none) else none

/-- Write `v[i] = x`; out-of-range indexing panics (`none`). -/
def setAt (v : List (Option Nat)) (i : Nat) (x : Option Nat) :
    Option (List (Option Nat)) :=
  if i < v.length then some (v.set i x) else none

/-- The pool state, with the fields of the Rust struct plus the ghost log
`decommits` of (address, length) pairs passed to the decommit syscall. -/
structure LazyPool where
  max_instances : Nat
  stack_size : Nat
  base : Nat
  dirty_ranges_slab : Slab
  dirty_begin_mapping : List (Option Nat)
  dirty_end_mapping : List (Option Nat)
  dirty_ranges : List (Nat × Nat)
  clean : List SlotId
  decommits : List (Nat × Nat)
deriving DecidableEq, Repr

namespace LazyPool

/-- `LazyPool::new`. -/
def new (ids : List SlotId) (max_instances stack_size base : Nat) : LazyPool :=
  { max_instances := max_instances
    stack_size := stack_size
    base := base
    dirty_ranges_slab := ⟨[], []⟩
    dirty_begin_mapping := List.replicate max_instances none
    dirty_end_mapping := List.replicate max_instances none
    dirty_ranges := []
    clean := ids
    decommits := [] }

/-- `LazyPool::is_empty`. -/
def is_empty (p : LazyPool) : Bool := p.clean.isEmpty && p.dirty_ranges.isEmpty

/-- `LazyPool::alloc`.  The argument `d` is the decommit oracle: `d addr len`
reports whether `decommit_stack_pages` succeeds on that region; the `.unwrap()`
on its failure aborts the process (`none`).  The `debug_assert` of the source
is compiled out in release builds and is not modelled. -/
def alloc (d : Nat → Nat → Bool) (p : LazyPool) : Option (SlotId × LazyPool) :=
  match p.clean.getLast? with
  | some id => some (id, { p with clean := p.clean.dropLast })
  | none =>
    match popMax p.dirty_ranges with
    | none => none
    | some ((slab_id, _), pq) =>
      match p.dirty_ranges_slab.remove slab_id with
      | none => none
      | some ((left, right), slab) =>
        match setAt p.dirty_begin_mapping left none with
        | none => none
        | some beginMap =>
          match setAt p.dirty_end_mapping right none with
          | none => none
          | some endMap =>
            let begin_addr := (left * p.stack_size + p.base) % usizeSize
            let len := (((right + 1 + usizeSize - left) % usizeSize) * p.stack_size) % usizeSize
            if d begin_addr len then
              some (left,
                { p with
                  dirty_ranges := pq
                  dirty_ranges_slab := slab
                  dirty_begin_mapping := beginMap
                  dirty_end_mapping := endMap
                  clean := p.clean ++ List.range' (left + 1) (right - left)
                  decommits := p.decommits ++ [(begin_addr, len)] })
            else none

/-- `LazyPool::free`. -/
def free (p : LazyPool) (index : SlotId) : Option LazyPool :=
  match (if index > 0 then takeAt p.dirty_end_mapping (index - 1)
         else some (none, p.dirty_end_mapping)) with
  | none => none
  | some (slab_left, endMap) =>
    match (if index + 1 < p.max_instances then takeAt p.dirty_begin_mapping (index + 1)
           else some (none, p.dirty_begin_mapping)) with
    | none => none
    | some (slab_right, beginMap) =>
      match slab_left, slab_right with
      | none, none =>
        -- unable to merge
        let (slab_id, slab) := p.dirty_ranges_slab.insert (index, index)
        match setAt beginMap index (some slab_id) with
        | none => none
        | some beginMap =>
          match setAt endMap index (some slab_id) with
          | none => none
          | some endMap =>
            some { p with
                   dirty_ranges_slab := slab
                   dirty_begin_mapping := beginMap
                   dirty_end_mapping := endMap
                   dirty_ranges := pqPush p.dirty_ranges slab_id 1 }
      | some slab_id, none =>
        -- merge with left
        match setAt endMap index (some slab_id) with
        | none => none
        | some endMap =>
          match p.dirty_ranges_slab.modifyAt slab_id (fun r => (r.1, index)) with
          | none => none
          | some (r, slab) =>
            let size := (r.2 + usizeSize - r.1) % usizeSize
            some { p with
                   dirty_ranges_slab := slab
                   dirty_begin_mapping := beginMap
                   dirty_end_mapping := endMap
                   dirty_ranges :=
                     if size &&& 0x11111 = 0 then pqChange p.dirty_ranges slab_id size
                     else p.dirty_ranges }
      | none, some slab_id =>
        -- merge with right
        match setAt beginMap index (some slab_id) with
        | none => none
        | some beginMap =>
          match p.dirty_ranges_slab.modifyAt slab_id (fun r => (index, r.2)) with
          | none => none
          | some (r, slab) =>
            let size := (r.2 + usizeSize - r.1) % usizeSize
            some { p with
                   dirty_ranges_slab := slab
                   dirty_begin_mapping := beginMap
                   dirty_end_mapping := endMap
                   dirty_ranges :=
                     if size &&& 0x11111 = 0 then pqChange p.dirty_ranges slab_id size
                     else p.dirty_ranges }
      | some left_slab_id, some right_slab_id =>
        -- merge with left and right
        match p.dirty_ranges_slab.remove right_slab_id with
        | none => none
        | some (right_range, slab) =>
          match slab.modifyAt left_slab_id (fun r => (r.1, right_range.2)) with
          | none => none
          | some (r, slab) =>
            let size := (r.2 + usizeSize - r.1) % usizeSize
            let pq :=
              if size &&& 0x11111 = 0 then pqChange p.dirty_ranges left_slab_id size
              else p.dirty_ranges
            some { p with
                   dirty_ranges_slab := slab
                   dirty_begin_mapping := beginMap
                   dirty_end_mapping := endMap
                   dirty_ranges := pqRemove pq right_slab_id }

end LazyPool

/-- Decommit oracle that always succeeds. -/
def dTrue : Nat → Nat → Bool := fun _ _ => true

/-- Call `alloc` (with always-succeeding decommit) `n` times, collecting the
returned slot ids; aborts if any call does. -/
def drainN : Nat → LazyPool → Option (List SlotId × LazyPool)
  | 0, p => some ([], p)
  | n + 1, p =>
    match LazyPool.alloc dTrue p with
    | none => none
    | some (id, q) =>
      match drainN n q with
      | none => none
      | some (ids, r) => some (id :: ids, r)

/-- Run a sequence of `free` calls; aborts if any call does. -/
def freeSeq : LazyPool → List SlotId → Option LazyPool
  | p, [] => some p
  | p, i :: rest =>
    match p.free i with
    | none => none
    | some q => freeSeq q rest

/-- The multiset of live ranges of the range store, in slab order. -/
def liveRanges (p : LazyPool) : List (Nat × Nat) :=
  p.dirty_ranges_slab.entries.filterMap id

/-- States reachable from a freshly constructed pool by any sequence of
`alloc` and `free` calls that complete normally. -/
inductive Reachable : LazyPool → Prop where
  | init : ∀ ids max_instances stack_size base,
      Reachable (LazyPool.new ids max_instances stack_size base)
  | alloc_step : ∀ p d id q, Reachable p → LazyPool.alloc d p = some (id, q) → Reachable q
  | free_step : ∀ p i q, Reachable p → LazyPool.free p i = some q → Reachable q

/-! ### Concrete scenario pools -/

/-- The spec's scenario pool: 8 slots of 64 KiB based at 0x100000000. -/
def p8 : LazyPool := LazyPool.new (List.range 8) 8 65536 4294967296

/-- A 10-slot pool (unit-sized slots, base 0). -/
def p10 : LazyPool := LazyPool.new (List.range 10) 10 1 0

/-- Allocate all 8 slots of `p8`, then free slot 0, then 2, then 1
(scenario S5 of the spec). -/
def c1run : Option LazyPool := (drainN 8 p8).bind (fun x => freeSeq x.2 [0, 2, 1])

/-- Allocate all 8 slots of `p8`, then free all of them in the order
0, 2, 1, 3, 4, 5, 6, 7. -/
def c2run : Option LazyPool :=
  (drainN 8 p8).bind (fun x => freeSeq x.2 [0, 2, 1, 3, 4, 5, 6, 7])

/-- Allocate all 8 slots of `p8`, then free slot 0, then slot 1. -/
def c3run : Option LazyPool := (drainN 8 p8).bind (fun x => freeSeq x.2 [0, 1])

/-- Allocate all 10 slots of `p10`, then free 8, 6, 7, 2, 9. -/
def c5run : Option LazyPool := (drainN 10 p10).bind (fun x => freeSeq x.2 [8, 6, 7, 2, 9])

/-! ### Settled claims: concrete counterexample traces -/

/-- C1: the claim says that in the two-neighbor merge of `free`, the end
index at R.end is set to the surviving left range's id, so that afterwards
every range's end index resolves to that range and no stale entry remains;
in particular after allocating all 8 slots and freeing 0, 2, 1 the single
range (0,2) (stored at slab id 0) should be resolved by end index 2.  The
code performs no such update: after that very trace the range store holds
(0,2) at slab id 0 with slab id 1 vacant, yet the end index at slot 2 still
holds the stale id 1 of the removed right range. -/
theorem c1_stale_end_index :
    c1run.map (fun q => (q.dirty_ranges_slab.entries, q.dirty_end_mapping.getD 2 none)) =
      some ([some (0, 2), none], some 1) := by decide

/-- C2: the claim says that after allocating all slots and freeing all of
them in any order, max_instances further allocs succeed.  For the free
order 0, 2, 1, 3, ... the run aborts at free(3): the stale end index left
at slot 2 by the two-neighbor merge points at a vacant slab entry, and the
source calls get_unchecked_mut on it (undefined behaviour, modelled as
abort), so the free phase itself never completes. -/
theorem c2_roundtrip_aborts : c2run = none := by decide

/-- C3 counterexample: after allocating all 8 slots and freeing 0 then 1,
the surviving range is (0,1), of length 2, and 2 &&& 0x11111 = 0, so the
claim requires the priority-queue key to be updated to the new length 2;
the code instead computes end - begin = 1, whose low mask bits are not all
zero, and leaves the priority at 1. -/
theorem c3_counterexample :
    c3run.map (fun q => (liveRanges q, pqLookup q.dirty_ranges 0)) = some ([(0, 1)], some 1)
    ∧ 2 &&& 0x11111 = 0 := by decide

/-- C5: the claim says every reachable state has pairwise disjoint,
non-adjacent live ranges.  After allocating all 10 slots of `p10` and
freeing 8, 6, 7, 2, 9, the stale end index left at slot 8 by the
two-neighbor merge of free(7) is picked up by free(9) and redirected onto
the reused slab id 0 (range (2,2)), stretching it to (2,9): the range store
then holds the two overlapping live ranges (2,9) and (6,8). -/
theorem c5_overlapping_ranges :
    c5run.map (fun q => (liveRanges q,
      decide (∀ a ∈ liveRanges q, ∀ b ∈ liveRanges q, a = b ∨ a.2 < b.1 ∨ b.2 < a.1))) =
    some ([(2, 9), (6, 8)], false) := by decide

/-! ### Error-path and frame claims -/

/-- A small dirty-state pool: 3 slots of 4 bytes based at 100, clean stack
empty, one dirty range (0,2) at slab id 0 with priority 1. -/
def c7pool : LazyPool :=
  { max_instances := 3, stack_size := 4, base := 100
    dirty_ranges_slab := ⟨[some (0, 2)], []⟩
    dirty_begin_mapping := [some 0, none, none]
    dirty_end_mapping := [none, none, some 0]
    dirty_ranges := [(0, 1)], clean := [], decommits := [] }

/-- C10: calling alloc on an empty pool (clean stack empty, no dirty
ranges) never returns a SlotId: the unwrap of the empty priority queue's
pop aborts, modelled by the allocation producing no result at all.  The
debug assertion of the source is not modelled, so this is the behaviour
with assertions compiled out. -/
theorem c10_alloc_empty_aborts :
    ∀ (d : Nat → Nat → Bool) (p : LazyPool),
      p.clean = [] → p.dirty_ranges = [] → LazyPool.alloc d p = none := by
  intro d p h1 h2
  unfold LazyPool.alloc
  rw [h1, h2]
  rfl

/-- Witness for C10 at a freshly constructed pool with no clean slots. -/
theorem c10_witness : LazyPool.alloc dTrue (LazyPool.new [] 4 1 0) = none :=
  c10_alloc_empty_aborts dTrue (LazyPool.new [] 4 1 0) rfl rfl

/-- C7: a failure reported by the decommit call during alloc is fatal:
whenever alloc runs with an always-failing decommit oracle and must take
the dirty-range path (clean stack empty), it produces no successor state
and no return value at all; there is no error channel in the signatures of
alloc, free or is_empty, matching the source where free returns unit and
is_empty returns a bare bool. -/
theorem c7_decommit_failure_fatal :
    ∀ (d : Nat → Nat → Bool) (p : LazyPool),
      (∀ a l, d a l = false) → p.clean = [] → LazyPool.alloc d p = none := by
  intro d p hd h1
  unfold LazyPool.alloc
  rw [h1]
  simp only [List.getLast?_nil]
  cases hp : popMax p.dirty_ranges with
  | none => rfl
  | some x =>
    obtain ⟨⟨sid, pr⟩, pq⟩ := x
    cases hr : p.dirty_ranges_slab.remove sid with
    | none => simp [hr]
    | some y =>
      obtain ⟨⟨l, r⟩, slab⟩ := y
      cases hb : setAt p.dirty_begin_mapping l none with
      | none => simp [hr, hb]
      | some bm =>
        cases he : setAt p.dirty_end_mapping r none with
        | none => simp [hr, hb, he]
        | some em => simp [hr, hb, he, hd]

/-- Witness for C7 at a pool whose clean stack is empty and whose priority
queue holds one range, so alloc reaches the decommit call. -/
theorem c7_witness : LazyPool.alloc (fun _ _ => false) c7pool = none :=
  c7_decommit_failure_fatal (fun _ _ => false) c7pool (fun _ _ => rfl) rfl

/-- C9: free never modifies the clean stack and never invokes decommit:
every completing call of free leaves both the clean stack and the log of
decommit calls exactly as they were. -/
theorem c9_free_frame :
    ∀ (p : LazyPool) (i : SlotId) (q : LazyPool),
      LazyPool.free p i = some q → q.clean = p.clean ∧ q.decommits = p.decommits := by
  intro p i q h
  unfold LazyPool.free at h
  repeat' split at h
  all_goals simp_all
  all_goals (obtain ⟨rfl⟩ := h; exact ⟨rfl, rfl⟩)

/-- A one-slot pool used to witness free. -/
def c9pool : LazyPool := LazyPool.new [5] 1 1 0

/-- The pool obtained from `c9pool` by freeing slot 0. -/
def c9q : LazyPool :=
  { max_instances := 1, stack_size := 1, base := 0
    dirty_ranges_slab := ⟨[some (0, 0)], []⟩
    dirty_begin_mapping := [some 0]
    dirty_end_mapping := [some 0]
    dirty_ranges := [(0, 1)], clean := [5], decommits := [] }

/-- Witness for C9: freeing slot 0 of `c9pool` leaves clean stack and
decommit log untouched. -/
theorem c9_witness : c9q.clean = c9pool.clean ∧ c9q.decommits = c9pool.decommits :=
  c9_free_frame c9pool 0 c9q (by decide)

/-! ### Priority-queue pop lemmas and alloc characterizations -/

lemma popMax_none_iff (pq : List (Nat × Nat)) : popMax pq = none ↔ pq = [] := by
  cases pq with
  | nil => simp [popMax]
  | cons e rest =>
    simp only [popMax]
    cases h : popMax rest with
    | none => simp
    | some x =>
      obtain ⟨e2, rest2⟩ := x
      by_cases hgt : e2.2 > e.2 <;> simp [hgt]

lemma popMax_perm (pq : List (Nat × Nat)) (e : Nat × Nat) (rest : List (Nat × Nat))
    (h : popMax pq = some (e, rest)) : pq.Perm (e :: rest) := by
  induction pq generalizing e rest with
  | nil => simp [popMax] at h
  | cons a tl ih =>
    simp only [popMax] at h
    cases ht : popMax tl with
    | none =>
      rw [ht] at h
      have htl : tl = [] := (popMax_none_iff tl).mp ht
      subst htl
      simp only [Option.some.injEq, Prod.mk.injEq] at h
      obtain ⟨rfl, rfl⟩ := h
      exact List.Perm.refl _
    | some x =>
      obtain ⟨e2, rest2⟩ := x
      rw [ht] at h
      by_cases hgt : e2.2 > a.2
      · simp only [hgt, if_pos, Option.some.injEq, Prod.mk.injEq] at h
        obtain ⟨rfl, rfl⟩ := h
        exact ((ih _ _ ht).cons a).trans (List.Perm.swap _ a _)
      · simp only [hgt, ite_false, Option.some.injEq, Prod.mk.injEq] at h
        obtain ⟨rfl, rfl⟩ := h
        exact List.Perm.refl _

lemma popMax_le (pq : List (Nat × Nat)) (e : Nat × Nat) (rest : List (Nat × Nat))
    (h : popMax pq = some (e, rest)) : ∀ x ∈ pq, x.2 ≤ e.2 := by
  induction pq generalizing e rest with
  | nil => simp [popMax] at h
  | cons a tl ih =>
    simp only [popMax] at h
    cases ht : popMax tl with
    | none =>
      rw [ht] at h
      have htl : tl = [] := (popMax_none_iff tl).mp ht
      subst htl
      simp only [Option.some.injEq, Prod.mk.injEq] at h
      obtain ⟨rfl, rfl⟩ := h
      simp
    | some x =>
      obtain ⟨e2, rest2⟩ := x
      rw [ht] at h
      by_cases hgt : e2.2 > a.2
      · simp only [hgt, if_pos, Option.some.injEq, Prod.mk.injEq] at h
        obtain ⟨rfl, rfl⟩ := h
        intro y hy
        rcases List.mem_cons.mp hy with rfl | hy
        · exact Nat.le_of_lt hgt
        · exact ih _ _ ht y hy
      · simp only [hgt, ite_false, Option.some.injEq, Prod.mk.injEq] at h
        obtain ⟨rfl, rfl⟩ := h
        intro y hy
        rcases List.mem_cons.mp hy with rfl | hy
        · exact Nat.le_refl _
        · exact Nat.le_trans (ih _ _ ht y hy) (Nat.le_of_not_lt hgt)

lemma alloc_clean_eq (d : Nat → Nat → Bool) (p : LazyPool) (xs : List SlotId) (x : SlotId)
    (h : p.clean = xs ++ [x]) :
    LazyPool.alloc d p = some (x, { p with clean := xs }) := by
  unfold LazyPool.alloc
  rw [h]
  simp [List.getLast?_concat, List.dropLast_concat]

lemma alloc_dirty_eq (p : LazyPool) (sid pr b e : Nat) (rest : List (Nat × Nat))
    (hclean : p.clean = [])
    (hpop : popMax p.dirty_ranges = some ((sid, pr), rest))
    (hslab : p.dirty_ranges_slab.entries.getD sid none = some (b, e))
    (hb : b < p.dirty_begin_mapping.length)
    (he : e < p.dirty_end_mapping.length) :
    LazyPool.alloc dTrue p =
      some (b,
        { p with
          dirty_ranges := rest
          dirty_ranges_slab := ⟨p.dirty_ranges_slab.entries.set sid none,
                                sid :: p.dirty_ranges_slab.freeList⟩
          dirty_begin_mapping := p.dirty_begin_mapping.set b none
          dirty_end_mapping := p.dirty_end_mapping.set e none
          clean := List.range' (b + 1) (e - b)
          decommits := p.decommits ++
            [((b * p.stack_size + p.base) % usizeSize,
              (((e + 1 + usizeSize - b) % usizeSize) * p.stack_size) % usizeSize)] }) := by
  unfold LazyPool.alloc
  rw [hclean]
  simp only [List.getLast?_nil, hpop]
  unfold Slab.remove
  rw [hslab]
  simp [setAt, hb, he, dTrue]

lemma drainN_clean (ys : List SlotId) (p : LazyPool) (h : p.clean = ys.reverse) :
    drainN ys.length p = some (ys, { p with clean := [] }) := by
  induction ys generalizing p with
  | nil =>
    simp only [List.length_nil, drainN]
    simp only [List.reverse_nil] at h
    cases p
    simp_all
  | cons y ys ih =>
    have h1 : LazyPool.alloc dTrue p = some (y, { p with clean := ys.reverse }) := by
      apply alloc_clean_eq
      rw [h]; simp
    have h2 := ih { p with clean := ys.reverse } rfl
    simp only [List.length_cons, drainN, h1, h2]

/-- C4: when alloc runs on a pool whose clean stack is empty and the
priority queue yields range (b,e) at slab id sid, the popped element has
maximal priority, the range is removed from the range store, the begin
index at b and the end index at e are cleared, decommit is invoked exactly
once with address base + b * slot_size and length (e - b + 1) * slot_size,
SlotId b is returned, and slots b+1 through e are pushed onto the clean
stack. -/
theorem c4_alloc_dirty :
    ∀ (p : LazyPool) (sid pr b e : Nat) (rest : List (Nat × Nat)),
      p.clean = [] →
      popMax p.dirty_ranges = some ((sid, pr), rest) →
      p.dirty_ranges_slab.entries.getD sid none = some (b, e) →
      b ≤ e →
      e < p.max_instances →
      p.dirty_begin_mapping.length = p.max_instances →
      p.dirty_end_mapping.length = p.max_instances →
      p.max_instances < usizeSize →
      b * p.stack_size + p.base < usizeSize →
      (e - b + 1) * p.stack_size < usizeSize →
      (LazyPool.alloc dTrue p =
        some (b, { p with
          dirty_ranges := rest
          dirty_ranges_slab := ⟨p.dirty_ranges_slab.entries.set sid none,
                                sid :: p.dirty_ranges_slab.freeList⟩
          dirty_begin_mapping := p.dirty_begin_mapping.set b none
          dirty_end_mapping := p.dirty_end_mapping.set e none
          clean := List.range' (b + 1) (e - b)
          decommits := p.decommits ++
            [(p.base + b * p.stack_size, (e - b + 1) * p.stack_size)] }))
      ∧ ∀ x ∈ p.dirty_ranges, x.2 ≤ pr := by
  intro p sid pr b e rest h1 h2 h3 hbe hemax hbl hel hmax haddr hlen
  have hb : b < p.dirty_begin_mapping.length := by omega
  have he : e < p.dirty_end_mapping.length := by omega
  have key := alloc_dirty_eq p sid pr b e rest h1 h2 h3 hb he
  have ha : (b * p.stack_size + p.base) % usizeSize = p.base + b * p.stack_size := by
    rw [Nat.mod_eq_of_lt haddr]
    exact Nat.add_comm _ _
  have hinner : (e + 1 + usizeSize - b) % usizeSize = e - b + 1 := by
    have h6 : e + 1 ≤ p.max_instances := hemax
    have h7 : p.max_instances < usizeSize := hmax
    simp only [usizeSize] at h7 ⊢
    have h8 : e + 1 + 18446744073709551616 - b = (e + 1 - b) + 18446744073709551616 := by
      omega
    rw [h8, Nat.add_mod_right, Nat.mod_eq_of_lt (by omega)]
    omega
  have hl : (((e + 1 + usizeSize - b) % usizeSize) * p.stack_size) % usizeSize
      = (e - b + 1) * p.stack_size := by
    rw [hinner, Nat.mod_eq_of_lt hlen]
  constructor
  · rw [key, ha, hl]
  · exact fun x hx => popMax_le p.dirty_ranges (sid, pr) rest h2 x hx

/-- Witness for C4 at the concrete pool `c7pool`: its single dirty range
(0,2) is popped, decommitted at address 100 with length 12, slot 0 is
returned and slots 1, 2 are pushed onto the clean stack. -/
theorem c4_witness :
    (LazyPool.alloc dTrue c7pool =
      some (0, { c7pool with
        dirty_ranges := ([] : List (Nat × Nat))
        dirty_ranges_slab := ⟨c7pool.dirty_ranges_slab.entries.set 0 none,
                              0 :: c7pool.dirty_ranges_slab.freeList⟩
        dirty_begin_mapping := c7pool.dirty_begin_mapping.set 0 none
        dirty_end_mapping := c7pool.dirty_end_mapping.set 2 none
        clean := List.range' (0 + 1) (2 - 0)
        decommits := c7pool.decommits ++
          [(c7pool.base + 0 * c7pool.stack_size, (2 - 0 + 1) * c7pool.stack_size)] }))
    ∧ ∀ x ∈ c7pool.dirty_ranges, x.2 ≤ 1 :=
  c4_alloc_dirty c7pool 0 1 0 2 [] rfl rfl rfl (by decide) (by decide) rfl rfl
    (by decide) (by decide) (by decide)

/-- A two-slot pool with clean stack [4, 5], for the LIFO witness. -/
def c8cleanpool : LazyPool := LazyPool.new [4, 5] 2 1 0

/-- The pool obtained by the dirty-path alloc on `c7pool`. -/
def c8q : LazyPool :=
  { max_instances := 3, stack_size := 4, base := 100
    dirty_ranges_slab := ⟨[none], [0]⟩
    dirty_begin_mapping := [none, none, none]
    dirty_end_mapping := [none, none, none]
    dirty_ranges := [], clean := [1, 2], decommits := [(100, 12)] }

/-- C8: alloc consumes the clean stack in LIFO order: when the clean stack
is xs ++ [x], alloc removes and returns x; and immediately after a
dirty-path alloc of a range (b,e) returned b, the next e - b allocs (no
intervening frees) return e, e-1, ..., b+1 in that order. -/
theorem c8_clean_lifo :
    (∀ (d : Nat → Nat → Bool) (p : LazyPool) (xs : List SlotId) (x : SlotId),
        p.clean = xs ++ [x] → LazyPool.alloc d p = some (x, { p with clean := xs })) ∧
    (∀ (p q : LazyPool) (sid pr b e ret : Nat) (rest : List (Nat × Nat)),
        p.clean = [] →
        popMax p.dirty_ranges = some ((sid, pr), rest) →
        p.dirty_ranges_slab.entries.getD sid none = some (b, e) →
        b ≤ e → e < p.max_instances →
        p.dirty_begin_mapping.length = p.max_instances →
        p.dirty_end_mapping.length = p.max_instances →
        LazyPool.alloc dTrue p = some (ret, q) →
        ret = b ∧ drainN (e - b) q =
          some ((List.range' (b + 1) (e - b)).reverse, { q with clean := [] })) := by
  constructor
  · exact alloc_clean_eq
  · intro p q sid pr b e ret rest h1 h2 h3 hbe hemax hbl hel halloc
    have hb : b < p.dirty_begin_mapping.length := by omega
    have he : e < p.dirty_end_mapping.length := by omega
    have key := alloc_dirty_eq p sid pr b e rest h1 h2 h3 hb he
    rw [key] at halloc
    simp only [Option.some.injEq, Prod.mk.injEq] at halloc
    obtain ⟨hret, hq⟩ := halloc
    subst hret
    have hqc : q.clean = List.range' (b + 1) (e - b) := by
      rw [← hq]
    have hfin := drainN_clean ((List.range' (b + 1) (e - b)).reverse) q
      (by rw [hqc]; exact (List.reverse_reverse _).symm)
    rw [List.length_reverse, List.length_range'] at hfin
    exact ⟨rfl, hfin⟩

/-- Witness for C8: on clean stack [4, 5] alloc returns 5 (the most
recently added element); after the dirty alloc of range (0,2) on `c7pool`
returned 0 and left `c8q`, the next 2 allocs return 2 then 1. -/
theorem c8_witness :
    (LazyPool.alloc dTrue c8cleanpool = some (5, { c8cleanpool with clean := [4] })) ∧
    (0 = 0 ∧ drainN (2 - 0) c8q =
      some ((List.range' (0 + 1) (2 - 0)).reverse, { c8q with clean := [] })) :=
  ⟨c8_clean_lifo.1 dTrue c8cleanpool [4] 5 rfl,
   c8_clean_lifo.2 c7pool c8q 0 1 0 2 0 [] rfl rfl rfl (by decide) (by decide) rfl rfl
     (by decide)⟩

lemma getDset_eq {α} : ∀ (l : List α) (i : Nat) (x d : α), i < l.length → (l.set i x).getD i d = x := by
  intro l
  induction l with
  | nil => intro i x d h; simp at h
  | cons a tl ih =>
    intro i x d h
    cases i with
    | zero => rfl
    | succ j => exact ih j x d (by simpa using h)

lemma getDset_ne {α} : ∀ (l : List α) (i j : Nat) (x d : α), i ≠ j → (l.set i x).getD j d = l.getD j d := by
  intro l
  induction l with
  | nil => intro i j x d h; rfl
  | cons a tl ih =>
    intro i j x d h
    cases i with
    | zero =>
      cases j with
      | zero => exact absurd rfl h
      | succ j2 => rfl
    | succ i2 =>
      cases j with
      | zero => rfl
      | succ j2 => exact ih i2 j2 x d (fun hh => h (by rw [hh]))

lemma getD_append_lt {α} : ∀ (l : List α) (x d : α) (i : Nat), i < l.length → (l ++ [x]).getD i d = l.getD i d := by
  intro l
  induction l with
  | nil => intro x d i h; simp at h
  | cons a tl ih =>
    intro x d i h
    cases i with
    | zero => rfl
    | succ j => exact ih x d j (by simpa using h)

lemma getD_append_len {α} : ∀ (l : List α) (x d : α), (l ++ [x]).getD l.length d = x := by
  intro l
  induction l with
  | nil => intro x d; rfl
  | cons a tl ih => intro x d; exact ih x d

lemma getD_oob {α} : ∀ (l : List α) (i : Nat) (d : α), l.length ≤ i → l.getD i d = d := by
  intro l
  induction l with
  | nil => intro i d _; cases i <;> rfl
  | cons a tl ih =>
    intro i d h
    cases i with
    | zero => simp at h
    | succ j => exact ih j d (by simpa using h)

lemma pqLookup_change_self (pq : List (Nat × Nat)) (k v : Nat) :
    pqLookup (pqChange pq k v) k = (pqLookup pq k).map (fun _ => v) := by
  induction pq with
  | nil => rfl
  | cons a tl ih =>
    by_cases h : a.1 = k
    · simp [pqChange, pqLookup, List.find?, h]
    · simp only [pqChange, pqLookup, List.map_cons, if_neg h, List.find?]
      have hb : (a.1 == k) = false := by simpa using h
      rw [hb]
      simp only [Bool.false_eq_true, if_false]
      exact ih

lemma pqLookup_remove_self (pq : List (Nat × Nat)) (k : Nat) :
    pqLookup (pqRemove pq k) k = none := by
  induction pq with
  | nil => rfl
  | cons a tl ih =>
    by_cases h : a.1 = k
    · simpa [pqRemove, h] using ih
    · have hb : (a.1 != k) = true := by simpa using h
      have hb2 : (a.1 == k) = false := by simpa using h
      simp only [pqRemove, List.filter_cons, hb, if_pos]
      simp only [pqLookup, List.find?, hb2]
      exact ih

lemma pqLookup_remove_ne (pq : List (Nat × Nat)) (k j : Nat) (h : j ≠ k) :
    pqLookup (pqRemove pq k) j = pqLookup pq j := by
  induction pq with
  | nil => rfl
  | cons a tl ih =>
    by_cases ha : a.1 = k
    · have hb : (a.1 != k) = false := by simpa using ha
      have hb2 : (a.1 == j) = false := by
        simp only [beq_eq_false_iff_ne, ne_eq]
        rw [ha]; exact fun hh => h hh.symm
      simp only [pqRemove, List.filter_cons, hb, Bool.false_eq_true, if_false]
      simp only [pqLookup, List.find?, hb2]
      simpa [pqRemove, pqLookup] using ih
    · have hb : (a.1 != k) = true := by simpa using ha
      simp only [pqRemove, List.filter_cons, hb, if_pos]
      simp only [pqLookup, List.find?]
      cases hc : (a.1 == j) with
      | true => rfl
      | false => simpa [pqRemove, pqLookup] using ih

lemma pqLookup_isSome_of_mem (pq : List (Nat × Nat)) (k : Nat) (h : k ∈ pqKeys pq) :
    ∃ w, pqLookup pq k = some w := by
  induction pq with
  | nil => simp [pqKeys] at h
  | cons a tl ih =>
    by_cases ha : a.1 = k
    · refine ⟨a.2, ?_⟩
      have hb : (a.1 == k) = true := by simpa using ha
      simp [pqLookup, List.find?, hb]
    · have hb : (a.1 == k) = false := by simpa using ha
      have h2 : k ∈ pqKeys tl := by
        simp only [pqKeys, List.map_cons, List.mem_cons] at h
        rcases h with h | h
        · exact absurd h.symm ha
        · exact h
      obtain ⟨w, hw⟩ := ih h2
      exact ⟨w, by simp only [pqLookup, List.find?, hb, Bool.false_eq_true, if_false]; exact hw⟩

lemma pqLookup_push_self (pq : List (Nat × Nat)) (k v : Nat) :
    pqLookup (pqPush pq k v) k = some v := by
  unfold pqPush
  by_cases h : k ∈ pqKeys pq
  · rw [if_pos h, pqLookup_change_self]
    obtain ⟨w, hw⟩ := pqLookup_isSome_of_mem pq k h
    rw [hw]; rfl
  · rw [if_neg h]
    simp [pqLookup, List.find?]

lemma free_left_main (p : LazyPool) (idx l b e0 : Nat) (E B : List (Option Nat))
    (hs1 : (if idx > 0 then takeAt p.dirty_end_mapping (idx - 1)
            else some (none, p.dirty_end_mapping)) = some (some l, E))
    (hs2 : (if idx + 1 < p.max_instances then takeAt p.dirty_begin_mapping (idx + 1)
            else some (none, p.dirty_begin_mapping)) = some (none, B))
    (hEi : idx < E.length)
    (hslab : p.dirty_ranges_slab.entries.getD l none = some (b, e0))
    (hble : b ≤ idx) (hiW : idx < usizeSize) :
    (LazyPool.free p idx).map (fun q => pqLookup q.dirty_ranges l) =
      some (if (idx - b) &&& 0x11111 = 0
            then (pqLookup p.dirty_ranges l).map (fun _ => idx - b)
            else pqLookup p.dirty_ranges l) := by
  have hsize : (idx + usizeSize - b) % usizeSize = idx - b := by
    simp only [usizeSize] at hiW ⊢
    have h8 : idx + 18446744073709551616 - b = (idx - b) + 18446744073709551616 := by omega
    rw [h8, Nat.add_mod_right, Nat.mod_eq_of_lt (by omega)]
  unfold LazyPool.free
  simp only [hs1, hs2]
  unfold Slab.modifyAt
  rw [hslab]
  simp only [setAt, hEi, if_pos, Option.map_some]
  simp only [hsize]
  by_cases hmask : (idx - b) &&& 0x11111 = 0
  · simp [hmask, pqLookup_change_self]
  · simp [hmask]

lemma free_right_main (p : LazyPool) (idx r b0 e0 : Nat) (E B : List (Option Nat))
    (hs1 : (if idx > 0 then takeAt p.dirty_end_mapping (idx - 1)
            else some (none, p.dirty_end_mapping)) = some (none, E))
    (hs2 : (if idx + 1 < p.max_instances then takeAt p.dirty_begin_mapping (idx + 1)
            else some (none, p.dirty_begin_mapping)) = some (some r, B))
    (hBi : idx < B.length)
    (hslab : p.dirty_ranges_slab.entries.getD r none = some (b0, e0))
    (hle : idx ≤ e0) (heW : e0 < usizeSize) :
    (LazyPool.free p idx).map (fun q => pqLookup q.dirty_ranges r) =
      some (if (e0 - idx) &&& 0x11111 = 0
            then (pqLookup p.dirty_ranges r).map (fun _ => e0 - idx)
            else pqLookup p.dirty_ranges r) := by
  have hsize : (e0 + usizeSize - idx) % usizeSize = e0 - idx := by
    simp only [usizeSize] at heW ⊢
    have h8 : e0 + 18446744073709551616 - idx = (e0 - idx) + 18446744073709551616 := by omega
    rw [h8, Nat.add_mod_right, Nat.mod_eq_of_lt (by omega)]
  unfold LazyPool.free
  simp only [hs1, hs2]
  unfold Slab.modifyAt
  rw [hslab]
  simp only [setAt, hBi, if_pos, Option.map_some]
  simp only [hsize]
  by_cases hmask : (e0 - idx) &&& 0x11111 = 0
  · simp [hmask, pqLookup_change_self]
  · simp [hmask]

lemma free_fresh_main (p : LazyPool) (idx : Nat) (E B : List (Option Nat))
    (hs1 : (if idx > 0 then takeAt p.dirty_end_mapping (idx - 1)
            else some (none, p.dirty_end_mapping)) = some (none, E))
    (hs2 : (if idx + 1 < p.max_instances then takeAt p.dirty_begin_mapping (idx + 1)
            else some (none, p.dirty_begin_mapping)) = some (none, B))
    (hBi : idx < B.length) (hEi : idx < E.length) :
    (LazyPool.free p idx).map
        (fun q => pqLookup q.dirty_ranges (p.dirty_ranges_slab.insert (idx, idx)).1) =
      some (some 1) := by
  unfold LazyPool.free
  simp only [hs1, hs2]
  rcases hins : p.dirty_ranges_slab.insert (idx, idx) with ⟨sid, slab⟩
  simp only [hins]
  have hBi2 : idx < (B.set idx (some sid)).length := by
    rw [List.length_set]; exact hBi
  simp only [setAt, hBi, hEi, if_pos, Option.map_some]
  exact congrArg some (pqLookup_push_self p.dirty_ranges sid 1)

lemma free_both_main (p : LazyPool) (idx l r bl el br er : Nat) (E B : List (Option Nat))
    (hs1 : (if idx > 0 then takeAt p.dirty_end_mapping (idx - 1)
            else some (none, p.dirty_end_mapping)) = some (some l, E))
    (hs2 : (if idx + 1 < p.max_instances then takeAt p.dirty_begin_mapping (idx + 1)
            else some (none, p.dirty_begin_mapping)) = some (some r, B))
    (hlr : l ≠ r)
    (hslabL : p.dirty_ranges_slab.entries.getD l none = some (bl, el))
    (hslabR : p.dirty_ranges_slab.entries.getD r none = some (br, er))
    (hble : bl ≤ er) (herW : er < usizeSize) :
    (LazyPool.free p idx).map
        (fun q => (pqLookup q.dirty_ranges l, pqLookup q.dirty_ranges r)) =
      some ((if (er - bl) &&& 0x11111 = 0
             then (pqLookup p.dirty_ranges l).map (fun _ => er - bl)
             else pqLookup p.dirty_ranges l), none) := by
  have hsize : (er + usizeSize - bl) % usizeSize = er - bl := by
    simp only [usizeSize] at herW ⊢
    have h8 : er + 18446744073709551616 - bl = (er - bl) + 18446744073709551616 := by omega
    rw [h8, Nat.add_mod_right, Nat.mod_eq_of_lt (by omega)]
  have hslabL2 : (p.dirty_ranges_slab.entries.set r none).getD l none = some (bl, el) := by
    rw [getDset_ne _ r l none none (fun hh => hlr hh.symm)]
    exact hslabL
  unfold LazyPool.free
  simp only [hs1, hs2]
  unfold Slab.remove
  rw [hslabR]
  unfold Slab.modifyAt
  simp only [hslabL2, Option.map_some]
  simp only [hsize]
  by_cases hmask : (er - bl) &&& 0x11111 = 0
  · simp [hmask, pqLookup_remove_ne _ r l hlr, pqLookup_change_self, pqLookup_remove_self]
  · simp [hmask, pqLookup_remove_ne _ r l hlr, pqLookup_remove_self]

/-- C3 (amended): in each of the three grow cases of free, the
priority-queue key of the surviving range is updated to end - begin (the
new length minus one) exactly when (end - begin) &&& 0x11111 = 0, and left
unchanged otherwise; a freshly created single-slot range is pushed with
priority 1.  (The claim as stated uses the new length and 2 &&& 0x11111 = 0
would force an update for a length-2 merge, which the code does not do; see
the counterexample.) -/
theorem c3_lazy_priority_amended :
    (∀ (p : LazyPool) (idx : Nat),
      p.dirty_begin_mapping.length = p.max_instances →
      p.dirty_end_mapping.length = p.max_instances →
      idx < p.max_instances →
      (0 < idx → p.dirty_end_mapping.getD (idx - 1) none = none) →
      (idx + 1 < p.max_instances → p.dirty_begin_mapping.getD (idx + 1) none = none) →
      (LazyPool.free p idx).map
          (fun q => pqLookup q.dirty_ranges (p.dirty_ranges_slab.insert (idx, idx)).1) =
        some (some 1)) ∧
    (∀ (p : LazyPool) (idx l b e0 : Nat),
      p.dirty_begin_mapping.length = p.max_instances →
      p.dirty_end_mapping.length = p.max_instances →
      idx < p.max_instances →
      p.max_instances ≤ usizeSize →
      0 < idx →
      p.dirty_end_mapping.getD (idx - 1) none = some l →
      (idx + 1 < p.max_instances → p.dirty_begin_mapping.getD (idx + 1) none = none) →
      p.dirty_ranges_slab.entries.getD l none = some (b, e0) →
      b ≤ idx →
      (LazyPool.free p idx).map (fun q => pqLookup q.dirty_ranges l) =
        some (if (idx - b) &&& 0x11111 = 0
              then (pqLookup p.dirty_ranges l).map (fun _ => idx - b)
              else pqLookup p.dirty_ranges l)) ∧
    (∀ (p : LazyPool) (idx r b0 e0 : Nat),
      p.dirty_begin_mapping.length = p.max_instances →
      p.dirty_end_mapping.length = p.max_instances →
      idx + 1 < p.max_instances →
      (0 < idx → p.dirty_end_mapping.getD (idx - 1) none = none) →
      p.dirty_begin_mapping.getD (idx + 1) none = some r →
      p.dirty_ranges_slab.entries.getD r none = some (b0, e0) →
      idx ≤ e0 →
      e0 < usizeSize →
      (LazyPool.free p idx).map (fun q => pqLookup q.dirty_ranges r) =
        some (if (e0 - idx) &&& 0x11111 = 0
              then (pqLookup p.dirty_ranges r).map (fun _ => e0 - idx)
              else pqLookup p.dirty_ranges r)) ∧
    (∀ (p : LazyPool) (idx l r bl el br er : Nat),
      p.dirty_begin_mapping.length = p.max_instances →
      p.dirty_end_mapping.length = p.max_instances →
      0 < idx →
      idx + 1 < p.max_instances →
      p.dirty_end_mapping.getD (idx - 1) none = some l →
      p.dirty_begin_mapping.getD (idx + 1) none = some r →
      l ≠ r →
      p.dirty_ranges_slab.entries.getD l none = some (bl, el) →
      p.dirty_ranges_slab.entries.getD r none = some (br, er) →
      bl ≤ er →
      er < usizeSize →
      (LazyPool.free p idx).map
          (fun q => (pqLookup q.dirty_ranges l, pqLookup q.dirty_ranges r)) =
        some ((if (er - bl) &&& 0x11111 = 0
               then (pqLookup p.dirty_ranges l).map (fun _ => er - bl)
               else pqLookup p.dirty_ranges l), none)) := by
  refine ⟨?_, ?_, ?_, ?_⟩
  · intro p idx hbl hel hidx hL hR
    by_cases h0 : 0 < idx
    · have hs1 : (if idx > 0 then takeAt p.dirty_end_mapping (idx - 1)
          else some (none, p.dirty_end_mapping)) =
          some (none, p.dirty_end_mapping.set (idx - 1) none) := by
        rw [if_pos h0]; unfold takeAt; rw [if_pos (by omega), hL h0]
      by_cases h1 : idx + 1 < p.max_instances
      · have hs2 : (if idx + 1 < p.max_instances then takeAt p.dirty_begin_mapping (idx + 1)
            else some (none, p.dirty_begin_mapping)) =
            some (none, p.dirty_begin_mapping.set (idx + 1) none) := by
          rw [if_pos h1]; unfold takeAt; rw [if_pos (by omega), hR h1]
        exact free_fresh_main p idx _ _ hs1 hs2
          (by rw [List.length_set]; omega) (by rw [List.length_set]; omega)
      · have hs2 : (if idx + 1 < p.max_instances then takeAt p.dirty_begin_mapping (idx + 1)
            else some (none, p.dirty_begin_mapping)) =
            some (none, p.dirty_begin_mapping) := by
          rw [if_neg h1]
        exact free_fresh_main p idx _ _ hs1 hs2 (by omega) (by rw [List.length_set]; omega)
    · have hs1 : (if idx > 0 then takeAt p.dirty_end_mapping (idx - 1)
          else some (none, p.dirty_end_mapping)) = some (none, p.dirty_end_mapping) := by
        rw [if_neg h0]
      by_cases h1 : idx + 1 < p.max_instances
      · have hs2 : (if idx + 1 < p.max_instances then takeAt p.dirty_begin_mapping (idx + 1)
            else some (none, p.dirty_begin_mapping)) =
            some (none, p.dirty_begin_mapping.set (idx + 1) none) := by
          rw [if_pos h1]; unfold takeAt; rw [if_pos (by omega), hR h1]
        exact free_fresh_main p idx _ _ hs1 hs2 (by rw [List.length_set]; omega) (by omega)
      · have hs2 : (if idx + 1 < p.max_instances then takeAt p.dirty_begin_mapping (idx + 1)
            else some (none, p.dirty_begin_mapping)) =
            some (none, p.dirty_begin_mapping) := by
          rw [if_neg h1]
        exact free_fresh_main p idx _ _ hs1 hs2 (by omega) (by omega)
  · intro p idx l b e0 hbl hel hidx hmax hpos hL hR hslab hble
    have hiW : idx < usizeSize := Nat.lt_of_lt_of_le hidx hmax
    have hs1 : (if idx > 0 then takeAt p.dirty_end_mapping (idx - 1)
        else some (none, p.dirty_end_mapping)) =
        some (some l, p.dirty_end_mapping.set (idx - 1) none) := by
      rw [if_pos hpos]; unfold takeAt; rw [if_pos (by omega), hL]
    by_cases h1 : idx + 1 < p.max_instances
    · have hs2 : (if idx + 1 < p.max_instances then takeAt p.dirty_begin_mapping (idx + 1)
          else some (none, p.dirty_begin_mapping)) =
          some (none, p.dirty_begin_mapping.set (idx + 1) none) := by
        rw [if_pos h1]; unfold takeAt; rw [if_pos (by omega), hR h1]
      exact free_left_main p idx l b e0 _ _ hs1 hs2
        (by rw [List.length_set]; omega) hslab hble hiW
    · have hs2 : (if idx + 1 < p.max_instances then takeAt p.dirty_begin_mapping (idx + 1)
          else some (none, p.dirty_begin_mapping)) =
          some (none, p.dirty_begin_mapping) := by
        rw [if_neg h1]
      exact free_left_main p idx l b e0 _ _ hs1 hs2
        (by rw [List.length_set]; omega) hslab hble hiW
  · intro p idx r b0 e0 hbl hel hnext hL hR hslab hle heW
    have hs2 : (if idx + 1 < p.max_instances then takeAt p.dirty_begin_mapping (idx + 1)
        else some (none, p.dirty_begin_mapping)) =
        some (some r, p.dirty_begin_mapping.set (idx + 1) none) := by
      rw [if_pos hnext]; unfold takeAt; rw [if_pos (by omega), hR]
    by_cases h0 : 0 < idx
    · have hs1 : (if idx > 0 then takeAt p.dirty_end_mapping (idx - 1)
          else some (none, p.dirty_end_mapping)) =
          some (none, p.dirty_end_mapping.set (idx - 1) none) := by
        rw [if_pos h0]; unfold takeAt; rw [if_pos (by omega), hL h0]
      exact free_right_main p idx r b0 e0 _ _ hs1 hs2
        (by rw [List.length_set]; omega) hslab hle heW
    · have hs1 : (if idx > 0 then takeAt p.dirty_end_mapping (idx - 1)
          else some (none, p.dirty_end_mapping)) = some (none, p.dirty_end_mapping) := by
        rw [if_neg h0]
      exact free_right_main p idx r b0 e0 _ _ hs1 hs2
        (by rw [List.length_set]; omega) hslab hle heW
  · intro p idx l r bl el br er hbl hel h0 h1 hL hR hlr hslabL hslabR hble herW
    have hs1 : (if idx > 0 then takeAt p.dirty_end_mapping (idx - 1)
        else some (none, p.dirty_end_mapping)) =
        some (some l, p.dirty_end_mapping.set (idx - 1) none) := by
      rw [if_pos h0]; unfold takeAt; rw [if_pos (by omega), hL]
    have hs2 : (if idx + 1 < p.max_instances then takeAt p.dirty_begin_mapping (idx + 1)
        else some (none, p.dirty_begin_mapping)) =
        some (some r, p.dirty_begin_mapping.set (idx + 1) none) := by
      rw [if_pos h1]; unfold takeAt; rw [if_pos (by omega), hR]
    exact free_both_main p idx l r bl el br er _ _ hs1 hs2 hlr hslabL hslabR hble herW

/-- Fresh-range pool for the C3 witness: no dirty state at all. -/
def c3poolF : LazyPool := LazyPool.new [] 4 1 0

def c3poolL : LazyPool :=
  { max_instances := 4, stack_size := 1, base := 0
    dirty_ranges_slab := ⟨[some (0, 0)], []⟩
    dirty_begin_mapping := [some 0, none, none, none]
    dirty_end_mapping := [some 0, none, none, none]
    dirty_ranges := [(0, 1)], clean := [], decommits := [] }

def c3poolR : LazyPool :=
  { max_instances := 4, stack_size := 1, base := 0
    dirty_ranges_slab := ⟨[some (2, 2)], []⟩
    dirty_begin_mapping := [none, none, some 0, none]
    dirty_end_mapping := [none, none, some 0, none]
    dirty_ranges := [(0, 1)], clean := [], decommits := [] }

def c3poolLR : LazyPool :=
  { max_instances := 4, stack_size := 1, base := 0
    dirty_ranges_slab := ⟨[some (0, 0), some (2, 2)], []⟩
    dirty_begin_mapping := [some 0, none, some 1, none]
    dirty_end_mapping := [some 0, none, some 1, none]
    dirty_ranges := [(0, 1), (1, 1)], clean := [], decommits := [] }

/-- Witness for C3 at four concrete pools, one per free case: the fresh
push gets priority 1; the two single-neighbor merges of new length 2 leave
the key at 1 (since end - begin = 1 has low mask bits set); the
two-neighbor merge of new length 3 updates the key to end - begin = 2. -/
theorem c3_lazy_priority_witness :
    ((LazyPool.free c3poolF 1).map
        (fun q => pqLookup q.dirty_ranges ((c3poolF.dirty_ranges_slab.insert (1, 1)).1)) =
      some (some 1)) ∧
    ((LazyPool.free c3poolL 1).map (fun q => pqLookup q.dirty_ranges 0) =
      some (if (1 - 0) &&& 0x11111 = 0
            then (pqLookup c3poolL.dirty_ranges 0).map (fun _ => 1 - 0)
            else pqLookup c3poolL.dirty_ranges 0)) ∧
    ((LazyPool.free c3poolR 1).map (fun q => pqLookup q.dirty_ranges 0) =
      some (if (2 - 1) &&& 0x11111 = 0
            then (pqLookup c3poolR.dirty_ranges 0).map (fun _ => 2 - 1)
            else pqLookup c3poolR.dirty_ranges 0)) ∧
    ((LazyPool.free c3poolLR 1).map
        (fun q => (pqLookup q.dirty_ranges 0, pqLookup q.dirty_ranges 1)) =
      some ((if (2 - 0) &&& 0x11111 = 0
             then (pqLookup c3poolLR.dirty_ranges 0).map (fun _ => 2 - 0)
             else pqLookup c3poolLR.dirty_ranges 0), none)) :=
  ⟨c3_lazy_priority_amended.1 c3poolF 1 rfl rfl (by decide) (fun _ => rfl) (fun _ => rfl),
   c3_lazy_priority_amended.2.1 c3poolL 1 0 0 0 rfl rfl (by decide) (by decide) (by decide)
     rfl (fun _ => rfl) rfl (by decide),
   c3_lazy_priority_amended.2.2.1 c3poolR 1 0 2 2 rfl rfl (by decide) (fun _ => rfl) rfl
     rfl (by decide) (by decide),
   c3_lazy_priority_amended.2.2.2 c3poolLR 1 0 1 0 0 2 2 rfl rfl (by decide) (by decide)
     rfl rfl (by decide) rfl rfl (by decide) (by decide)⟩

/-! ### The queue-keyset invariant (C6) -/

/-- The invariant tying the priority queue to the slab: the queue keys are
duplicate-free and hold exactly the occupied slab keys, and the slab free
list is a duplicate-free list of vacant in-range indices. -/
def SPInv (slab : Slab) (pq : List (Nat × Nat)) : Prop :=
  (pqKeys pq).Nodup ∧
  (∀ k, k ∈ pqKeys pq ↔ slab.occ k = true) ∧
  slab.freeList.Nodup ∧
  (∀ k ∈ slab.freeList, k < slab.entries.length ∧ slab.entries.getD k none = none)

lemma lt_of_getD_some {α} (l : List (Option α)) (k : Nat) (r : α)
    (h : l.getD k none = some r) : k < l.length := by
  by_contra hx
  push_neg at hx
  rw [getD_oob _ _ _ hx] at h
  simp at h

lemma occ_lt (s : Slab) (k : Nat) (h : s.occ k = true) : k < s.entries.length := by
  unfold Slab.occ at h
  cases hg : s.entries.getD k none with
  | none => rw [hg] at h; simp at h
  | some r => exact lt_of_getD_some _ _ _ hg

lemma pqKeys_change (pq : List (Nat × Nat)) (k v : Nat) :
    pqKeys (pqChange pq k v) = pqKeys pq := by
  induction pq with
  | nil => rfl
  | cons a tl ih =>
    simp only [pqChange, List.map_cons, pqKeys] at ih ⊢
    by_cases h : a.1 = k
    · simp [h, ih]
    · simp only [if_neg h, ih]

lemma mem_pqKeys_remove (pq : List (Nat × Nat)) (k x : Nat) :
    x ∈ pqKeys (pqRemove pq k) ↔ x ∈ pqKeys pq ∧ x ≠ k := by
  induction pq with
  | nil => simp [pqRemove, pqKeys]
  | cons a tl ih =>
    by_cases h : a.1 = k
    · have hb : (a.1 != k) = false := by simpa using h
      simp only [pqRemove, List.filter_cons, hb, Bool.false_eq_true, if_false, pqKeys,
        List.map_cons, List.mem_cons]
      constructor
      · intro hx
        obtain ⟨hmem, hne⟩ := ih.mp hx
        exact ⟨Or.inr hmem, hne⟩
      · rintro ⟨hx | hmem, hne⟩
        · exact absurd (hx.trans h) hne
        · exact ih.mpr ⟨hmem, hne⟩
    · have hb : (a.1 != k) = true := by simpa using h
      simp only [pqRemove, List.filter_cons, hb, if_pos, pqKeys, List.map_cons, List.mem_cons]
      constructor
      · rintro (hx | hmem)
        · exact ⟨Or.inl hx, by rw [hx]; exact h⟩
        · obtain ⟨hmem2, hne⟩ := ih.mp hmem
          exact ⟨Or.inr hmem2, hne⟩
      · rintro ⟨hx | hmem, hne⟩
        · exact Or.inl hx
        · exact Or.inr (ih.mpr ⟨hmem, hne⟩)

lemma nodup_pqKeys_remove (pq : List (Nat × Nat)) (k : Nat) (h : (pqKeys pq).Nodup) :
    (pqKeys (pqRemove pq k)).Nodup := by
  have hs : (pqRemove pq k).Sublist pq := List.filter_sublist _
  exact h.sublist (hs.map Prod.fst)

lemma slab_remove_parts (slab : Slab) (k : Nat) (rr : Nat × Nat) (slab2 : Slab)
    (h3 : slab.freeList.Nodup)
    (h4 : ∀ j ∈ slab.freeList, j < slab.entries.length ∧ slab.entries.getD j none = none)
    (hr : slab.remove k = some (rr, slab2)) :
    (∀ x, slab2.occ x = true ↔ (slab.occ x = true ∧ x ≠ k)) ∧
    slab2.freeList.Nodup ∧
    (∀ j ∈ slab2.freeList, j < slab2.entries.length ∧ slab2.entries.getD j none = none) := by
  unfold Slab.remove at hr
  cases hk : slab.entries.getD k none with
  | none => rw [hk] at hr; cases hr
  | some r =>
    rw [hk] at hr
    injection hr with hr
    have hr2 : slab2 = ⟨slab.entries.set k none, k :: slab.freeList⟩ :=
      (congrArg Prod.snd hr).symm
    subst hr2
    have hklen : k < slab.entries.length := lt_of_getD_some _ _ _ hk
    refine ⟨?_, ?_, ?_⟩
    · intro x
      by_cases hx : x = k
      · subst hx
        unfold Slab.occ
        simp only [getDset_eq _ _ _ _ hklen]
        simp
      · unfold Slab.occ
        simp only [getDset_ne _ k x _ _ (fun hh => hx hh.symm)]
        simp [hx]
    · refine List.Nodup.cons ?_ h3
      intro hmem
      have := (h4 k hmem).2
      rw [hk] at this
      cases this
    · intro j hj
      rcases List.mem_cons.mp hj with rfl | hj2
      · refine ⟨by rw [List.length_set]; exact hklen, getDset_eq _ _ _ _ hklen⟩
      · obtain ⟨hlt, hnone⟩ := h4 j hj2
        have hjk : j ≠ k := by
          intro hh
          rw [hh, hk] at hnone
          cases hnone
        exact ⟨by rw [List.length_set]; exact hlt,
          by rw [getDset_ne _ k j _ _ (fun hh => hjk hh.symm)]; exact hnone⟩

lemma spinv_pqchange (slab : Slab) (pq : List (Nat × Nat)) (k v : Nat)
    (h : SPInv slab pq) : SPInv slab (pqChange pq k v) := by
  obtain ⟨h1, h2, h3, h4⟩ := h
  refine ⟨?_, ?_, h3, h4⟩
  · rw [pqKeys_change]; exact h1
  · intro x; rw [pqKeys_change]; exact h2 x

lemma spinv_modify (slab : Slab) (pq : List (Nat × Nat)) (k : Nat)
    (f : (Nat × Nat) → (Nat × Nat)) (rr : Nat × Nat) (slab2 : Slab)
    (h : SPInv slab pq) (hm : slab.modifyAt k f = some (rr, slab2)) :
    SPInv slab2 pq := by
  obtain ⟨h1, h2, h3, h4⟩ := h
  unfold Slab.modifyAt at hm
  cases hk : slab.entries.getD k none with
  | none => rw [hk] at hm; cases hm
  | some r =>
    rw [hk] at hm
    injection hm with hm
    have hm2 : slab2 = ⟨slab.entries.set k (some (f r)), slab.freeList⟩ :=
      (congrArg Prod.snd hm).symm
    subst hm2
    have hklen : k < slab.entries.length := lt_of_getD_some _ _ _ hk
    refine ⟨h1, ?_, h3, ?_⟩
    · intro x
      by_cases hx : x = k
      · subst hx
        unfold Slab.occ
        simp only [getDset_eq _ _ _ _ hklen]
        rw [h2 x]
        unfold Slab.occ
        rw [hk]
        simp
      · unfold Slab.occ
        rw [getDset_ne _ k x _ _ (fun hh => hx hh.symm)]
        exact h2 x
    · intro j hj
      obtain ⟨hlt, hnone⟩ := h4 j hj
      have hjk : j ≠ k := by
        intro hh
        rw [hh, hk] at hnone
        cases hnone
      exact ⟨by rw [List.length_set]; exact hlt,
        by rw [getDset_ne _ k j _ _ (fun hh => hjk hh.symm)]; exact hnone⟩

lemma spinv_remove (slab : Slab) (pq : List (Nat × Nat)) (k : Nat)
    (rr : Nat × Nat) (slab2 : Slab)
    (h : SPInv slab pq) (hr : slab.remove k = some (rr, slab2)) :
    SPInv slab2 (pqRemove pq k) := by
  obtain ⟨h1, h2, h3, h4⟩ := h
  obtain ⟨hocc, hnd, hwf⟩ := slab_remove_parts slab k rr slab2 h3 h4 hr
  refine ⟨nodup_pqKeys_remove pq k h1, ?_, hnd, hwf⟩
  intro x
  rw [mem_pqKeys_remove, hocc, h2 x]

lemma spinv_insert_push (slab : Slab) (pq : List (Nat × Nat)) (r : Nat × Nat)
    (v sid : Nat) (slab2 : Slab)
    (h : SPInv slab pq) (hi : slab.insert r = (sid, slab2)) :
    SPInv slab2 (pqPush pq sid v) := by
  obtain ⟨h1, h2, h3, h4⟩ := h
  unfold Slab.insert at hi
  cases hfl : slab.freeList with
  | nil =>
    rw [hfl] at hi
    have hsid : sid = slab.entries.length := (congrArg Prod.fst hi).symm
    have hslab2 : slab2 = ⟨slab.entries ++ [some r], []⟩ := (congrArg Prod.snd hi).symm
    subst hslab2
    have hnot : sid ∉ pqKeys pq := by
      intro hmem
      have hocc := (h2 sid).mp hmem
      have := occ_lt slab sid hocc
      omega
    rw [pqPush, if_neg hnot]
    refine ⟨List.Nodup.cons hnot h1, ?_, List.nodup_nil, by intro j hj; cases hj⟩
    intro x
    simp only [pqKeys, List.map_cons, List.mem_cons]
    by_cases hx : x = sid
    · subst hx
      unfold Slab.occ
      rw [hsid, getD_append_len]
      simp
    · unfold Slab.occ
      constructor
      · rintro (hh | hmem)
        · exact absurd hh hx
        · have hocc := (h2 x).mp hmem
          have hlt := occ_lt slab x hocc
          rw [getD_append_lt _ _ _ _ hlt]
          exact hocc
      · intro hocc
        by_cases hlt : x < slab.entries.length
        · rw [getD_append_lt _ _ _ _ hlt] at hocc
          exact Or.inr ((h2 x).mpr hocc)
        · push_neg at hlt
          have hge : slab.entries.length + 1 ≤ x := by
            rcases Nat.lt_or_ge x (slab.entries.length + 1) with hlt2 | hge
            · exact absurd (by omega : x = slab.entries.length) (by rw [hsid] at hx; exact hx)
            · exact hge
          rw [getD_oob _ _ _ (by simpa using hge)] at hocc
          cases hocc
  | cons c rest =>
    rw [hfl] at hi
    have hsid : sid = c := (congrArg Prod.fst hi).symm
    have hslab2 : slab2 = ⟨slab.entries.set c (some r), rest⟩ := (congrArg Prod.snd hi).symm
    subst hslab2
    subst hsid
    have hcprop := h4 sid (by rw [hfl]; exact List.mem_cons_self sid rest)
    have hnot : sid ∉ pqKeys pq := by
      intro hmem
      have hocc := (h2 sid).mp hmem
      unfold Slab.occ at hocc
      rw [hcprop.2] at hocc
      cases hocc
    rw [pqPush, if_neg hnot]
    have hndfl : (sid :: rest).Nodup := by rw [← hfl]; exact h3
    refine ⟨List.Nodup.cons hnot h1, ?_, (List.nodup_cons.mp hndfl).2, ?_⟩
    · intro x
      simp only [pqKeys, List.map_cons, List.mem_cons]
      by_cases hx : x = sid
      · subst hx
        unfold Slab.occ
        rw [getDset_eq _ _ _ _ hcprop.1]
        simp
      · unfold Slab.occ
        rw [getDset_ne _ sid x _ _ (fun hh => hx hh.symm)]
        constructor
        · rintro (hh | hmem)
          · exact absurd hh hx
          · exact (h2 x).mp hmem
        · intro hocc
          exact Or.inr ((h2 x).mpr hocc)
    · intro j hj
      have hj2 : j ∈ slab.freeList := by rw [hfl]; exact List.mem_cons_of_mem sid hj
      obtain ⟨hlt, hnone⟩ := h4 j hj2
      have hjc : j ≠ sid := by
        intro hh
        subst hh
        exact (List.nodup_cons.mp hndfl).1 hj
      exact ⟨by rw [List.length_set]; exact hlt,
        by rw [getDset_ne _ sid j _ _ (fun hh => hjc hh.symm)]; exact hnone⟩

lemma spinv_pop (slab : Slab) (pq : List (Nat × Nat)) (sid pr : Nat)
    (rest : List (Nat × Nat)) (rr : Nat × Nat) (slab2 : Slab)
    (h : SPInv slab pq) (hp : popMax pq = some ((sid, pr), rest))
    (hr : slab.remove sid = some (rr, slab2)) :
    SPInv slab2 rest := by
  obtain ⟨h1, h2, h3, h4⟩ := h
  obtain ⟨hocc, hnd, hwf⟩ := slab_remove_parts slab sid rr slab2 h3 h4 hr
  have hperm : pq.Perm ((sid, pr) :: rest) := popMax_perm pq _ _ hp
  have hkperm : (pqKeys pq).Perm (sid :: pqKeys rest) := hperm.map Prod.fst
  have hnd2 : (sid :: pqKeys rest).Nodup := hkperm.nodup h1
  obtain ⟨hsidnot, hndrest⟩ := List.nodup_cons.mp hnd2
  refine ⟨hndrest, ?_, hnd, hwf⟩
  intro x
  rw [hocc, ← h2 x]
  constructor
  · intro hmem
    have hx : x ∈ sid :: pqKeys rest := List.mem_cons_of_mem sid hmem
    refine ⟨hkperm.symm.subset hx, ?_⟩
    intro hh
    subst hh
    exact hsidnot hmem
  · rintro ⟨hmem, hne⟩
    have hx : x ∈ sid :: pqKeys rest := hkperm.subset hmem
    rcases List.mem_cons.mp hx with hh | hmem2
    · exact absurd hh hne
    · exact hmem2

lemma free_spinv (p : LazyPool) (i : SlotId) (q : LazyPool)
    (h : SPInv p.dirty_ranges_slab p.dirty_ranges) (hf : LazyPool.free p i = some q) :
    SPInv q.dirty_ranges_slab q.dirty_ranges := by
  unfold LazyPool.free at hf
  cases hs1 : (if i > 0 then takeAt p.dirty_end_mapping (i - 1)
      else some (none, p.dirty_end_mapping)) with
  | none => rw [hs1] at hf; exact Option.noConfusion hf
  | some se =>
  obtain ⟨sl, E⟩ := se
  simp only [hs1] at hf
  cases hs2 : (if i + 1 < p.max_instances then takeAt p.dirty_begin_mapping (i + 1)
      else some (none, p.dirty_begin_mapping)) with
  | none => rw [hs2] at hf; exact Option.noConfusion hf
  | some sb =>
  obtain ⟨sr, B⟩ := sb
  simp only [hs2] at hf
  cases sl with
  | none =>
    cases sr with
    | none =>
      -- fresh single-slot range
      rcases hins : p.dirty_ranges_slab.insert (i, i) with ⟨sid, slab2⟩
      simp only [hins] at hf
      cases hsb : setAt B i (some sid) with
      | none => simp only [hsb] at hf; exact Option.noConfusion hf
      | some B2 =>
      simp only [hsb] at hf
      cases hse : setAt E i (some sid) with
      | none => simp only [hse] at hf; exact Option.noConfusion hf
      | some E2 =>
      simp only [hse] at hf
      injection hf with hf
      subst hf
      exact spinv_insert_push _ _ _ 1 _ _ h hins
    | some r =>
      -- merge with right
      cases hsb : setAt B i (some r) with
      | none => simp only [hsb] at hf; exact Option.noConfusion hf
      | some B2 =>
      simp only [hsb] at hf
      cases hmod : p.dirty_ranges_slab.modifyAt r (fun rr => (i, rr.2)) with
      | none => simp only [hmod] at hf; exact Option.noConfusion hf
      | some y =>
      obtain ⟨rr, slab2⟩ := y
      simp only [hmod] at hf
      injection hf with hf
      subst hf
      by_cases hmask : ((rr.2 + usizeSize - rr.1) % usizeSize) &&& 0x11111 = 0
      · simp only [if_pos hmask]
        exact spinv_modify _ _ _ _ _ _ (spinv_pqchange _ _ _ _ h) hmod
      · simp only [if_neg hmask]
        exact spinv_modify _ _ _ _ _ _ h hmod
  | some l =>
    cases sr with
    | none =>
      -- merge with left
      cases hse : setAt E i (some l) with
      | none => simp only [hse] at hf; exact Option.noConfusion hf
      | some E2 =>
      simp only [hse] at hf
      cases hmod : p.dirty_ranges_slab.modifyAt l (fun rr => (rr.1, i)) with
      | none => simp only [hmod] at hf; exact Option.noConfusion hf
      | some y =>
      obtain ⟨rr, slab2⟩ := y
      simp only [hmod] at hf
      injection hf with hf
      subst hf
      by_cases hmask : ((rr.2 + usizeSize - rr.1) % usizeSize) &&& 0x11111 = 0
      · simp only [if_pos hmask]
        exact spinv_modify _ _ _ _ _ _ (spinv_pqchange _ _ _ _ h) hmod
      · simp only [if_neg hmask]
        exact spinv_modify _ _ _ _ _ _ h hmod
    | some r =>
      -- merge with left and right
      cases hrem : p.dirty_ranges_slab.remove r with
      | none => simp only [hrem] at hf; exact Option.noConfusion hf
      | some y =>
      obtain ⟨rr, slab1⟩ := y
      simp only [hrem] at hf
      cases hmod : slab1.modifyAt l (fun rr2 => (rr2.1, rr.2)) with
      | none => simp only [hmod] at hf; exact Option.noConfusion hf
      | some z =>
      obtain ⟨rr2, slab2⟩ := z
      simp only [hmod] at hf
      injection hf with hf
      subst hf
      by_cases hmask : ((rr2.2 + usizeSize - rr2.1) % usizeSize) &&& 0x11111 = 0
      · simp only [if_pos hmask]
        exact spinv_modify _ _ _ _ _ _
          (spinv_remove _ _ _ _ _ (spinv_pqchange _ _ _ _ h) hrem) hmod
      · simp only [if_neg hmask]
        exact spinv_modify _ _ _ _ _ _ (spinv_remove _ _ _ _ _ h hrem) hmod

lemma alloc_spinv (p : LazyPool) (d : Nat → Nat → Bool) (id0 : SlotId) (q : LazyPool)
    (h : SPInv p.dirty_ranges_slab p.dirty_ranges)
    (ha : LazyPool.alloc d p = some (id0, q)) :
    SPInv q.dirty_ranges_slab q.dirty_ranges := by
  unfold LazyPool.alloc at ha
  cases hcl : p.clean.getLast? with
  | some c =>
    simp only [hcl] at ha
    injection ha with ha
    have hq : { p with clean := p.clean.dropLast } = q := congrArg Prod.snd ha
    subst hq
    exact h
  | none =>
    simp only [hcl] at ha
    cases hp : popMax p.dirty_ranges with
    | none => simp only [hp] at ha; exact Option.noConfusion ha
    | some x =>
    obtain ⟨⟨sid, pr⟩, pq2⟩ := x
    simp only [hp] at ha
    cases hrem : p.dirty_ranges_slab.remove sid with
    | none => simp only [hrem] at ha; exact Option.noConfusion ha
    | some y =>
    obtain ⟨⟨l, r⟩, slab2⟩ := y
    simp only [hrem] at ha
    cases hsb : setAt p.dirty_begin_mapping l none with
    | none => simp only [hsb] at ha; exact Option.noConfusion ha
    | some B2 =>
    simp only [hsb] at ha
    cases hse : setAt p.dirty_end_mapping r none with
    | none => simp only [hse] at ha; exact Option.noConfusion ha
    | some E2 =>
    simp only [hse] at ha
    by_cases hd : d ((l * p.stack_size + p.base) % usizeSize)
        ((((r + 1 + usizeSize - l) % usizeSize) * p.stack_size) % usizeSize) = true
    · rw [if_pos hd] at ha
      injection ha with ha
      have hq := congrArg Prod.snd ha
      subst hq
      exact spinv_pop _ _ _ _ _ _ _ h hp hrem
    · rw [if_neg hd] at ha
      exact Option.noConfusion ha

lemma new_spinv (ids : List SlotId) (mi ss b : Nat) :
    SPInv (LazyPool.new ids mi ss b).dirty_ranges_slab (LazyPool.new ids mi ss b).dirty_ranges := by
  refine ⟨List.nodup_nil, ?_, List.nodup_nil, by intro j hj; cases hj⟩
  intro k
  unfold Slab.occ
  constructor
  · intro hk; cases hk
  · intro hocc
    rw [show (LazyPool.new ids mi ss b).dirty_ranges_slab.entries = [] from rfl] at hocc
    rw [getD_oob _ _ _ (by simp)] at hocc
    cases hocc

lemma reachable_spinv (p : LazyPool) (h : Reachable p) :
    SPInv p.dirty_ranges_slab p.dirty_ranges := by
  induction h with
  | init ids mi ss b => exact new_spinv ids mi ss b
  | alloc_step p d id q hp ha ih => exact alloc_spinv p d id q ih ha
  | free_step p i q hp hf ih => exact free_spinv p i q ih hf

/-- C6: in every reachable state, the priority queue's key set equals
exactly the set of slab ids live in the range store, and is_empty returns
true iff the clean stack and the range store are both empty.  (Reachability
here allows any completing alloc and free calls, a superset of the
precondition-respecting sequences of the claim.) -/
theorem c6_queue_keyset_and_empty :
    ∀ p : LazyPool, Reachable p →
      (∀ k, k ∈ pqKeys p.dirty_ranges ↔ p.dirty_ranges_slab.occ k = true) ∧
      (p.is_empty = true ↔ (p.clean = [] ∧ ∀ k, p.dirty_ranges_slab.occ k = false)) := by
  intro p hr
  have h := reachable_spinv p hr
  refine ⟨h.2.1, ?_⟩
  unfold LazyPool.is_empty
  rw [Bool.and_eq_true, List.isEmpty_iff, List.isEmpty_iff]
  constructor
  · rintro ⟨h1, h2⟩
    refine ⟨h1, fun k => ?_⟩
    cases hocc : p.dirty_ranges_slab.occ k with
    | false => rfl
    | true =>
      have hmem := (h.2.1 k).mpr hocc
      rw [h2] at hmem
      cases hmem
  · rintro ⟨h1, h2⟩
    refine ⟨h1, ?_⟩
    cases hpq : p.dirty_ranges with
    | nil => rfl
    | cons a tl =>
      have hmem : a.1 ∈ pqKeys p.dirty_ranges := by
        rw [hpq]; exact List.mem_cons_self _ _
      have hocc := (h.2.1 a.1).mp hmem
      rw [h2 a.1] at hocc
      cases hocc

/-- Witness for C6 at a freshly constructed two-slot pool. -/
theorem c6_witness :
    (∀ k, k ∈ pqKeys (LazyPool.new [0, 1] 2 1 0).dirty_ranges ↔
        (LazyPool.new [0, 1] 2 1 0).dirty_ranges_slab.occ k = true) ∧
    ((LazyPool.new [0, 1] 2 1 0).is_empty = true ↔
      ((LazyPool.new [0, 1] 2 1 0).clean = [] ∧
        ∀ k, (LazyPool.new [0, 1] 2 1 0).dirty_ranges_slab.occ k = false)) :=
  c6_queue_keyset_and_empty (LazyPool.new [0, 1] 2 1 0) (Reachable.init [0, 1] 2 1 0)
